import Mathlib

/-!
# Verification of the tilemap adjacency-graph builder

Shallow embedding of the edge-extraction and edge-matching core of
`src/main.ts` (functions `updateTileNeighbors`, `extractEdgeColors`,
`edgesMatch`), together with theorems settling the frozen claims about it.

Modelling conventions:
* JavaScript numbers are embedded exactly: pixel channel values as `ℤ`
  (the source reads them from a `Uint8ClampedArray`), the `tolerance`
  argument and the match ratio as `ℚ` (the source computes them with
  exact results on the inputs that occur: small integers and one division).
* The per-position test `Math.sqrt(dsq) <= tolerance` is embedded as the
  equivalent decidable test `0 ≤ tolerance ∧ dsq ≤ tolerance ^ 2`; the
  theorem for the tolerance-boundary claim proves this equivalent to the
  real-square-root comparison the source writes.
* The browser-side image decoding inside `extractEdgeColors` is I/O and is
  not embedded; its pure core (border indexing of the decoded row-major
  RGBA buffer) is `extractEdgeCore`.  For `updateTileNeighbors`, a tile
  carries the decoder's result directly: `none` when the tile has no
  `image` string (the source then never inserts it into the edge map), and
  `some e` when it has one (`e` has four empty edge lists when decoding
  fails, exactly as the source's error paths resolve).
* Neighbor lists hold tile ids (the source pushes tile references and the
  spec keys all adjacency lookups by id).
-/

/-- One RGBA color: the four components destructured by
`const [r1, g1, b1, a1] = edge1[i]` in `edgesMatch`. -/
structure Color where
  r : ℤ
  g : ℤ
  b : ℤ
  a : ℤ
deriving DecidableEq, Repr

/-- The squared Euclidean RGBA distance
`(r1-r2)^2 + (g1-g2)^2 + (b1-b2)^2 + (a1-a2)^2` from `edgesMatch`
(the source takes `Math.sqrt` of this sum). -/
def colorDistSq (c1 c2 : Color) : ℤ :=
  (c1.r - c2.r) ^ 2 + (c1.g - c2.g) ^ 2 + (c1.b - c2.b) ^ 2 + (c1.a - c2.a) ^ 2

/-- The per-position test `distance <= tolerance` of `edgesMatch`, with
`distance = Math.sqrt (colorDistSq c1 c2)`.  Embedded squared so it is
decidable: for `0 ≤ t` the comparison `Real.sqrt d ≤ t` is equivalent to
`d ≤ t ^ 2`, and for `t < 0` it is false since `Real.sqrt d ≥ 0`
(theorem `posMatches_iff_sqrt_le` proves this equivalence). -/
def posMatches (c1 c2 : Color) (tolerance : ℚ) : Bool :=
  decide (0 ≤ tolerance) && decide ((colorDistSq c1 c2 : ℚ) ≤ tolerance ^ 2)

/-- The `exactMatches` counter of `edgesMatch`: the number of positions `i`
of two equal-length edges whose colors are within tolerance.  The source
loops `i` from `0` to `edge1.length - 1` reading `edge1[i]` and `edge2[i]`;
on equal-length lists this is the count over their zip. -/
def matchCount (edge1 edge2 : List Color) (tolerance : ℚ) : ℕ :=
  ((edge1.zip edge2).filter (fun p => posMatches p.1 p.2 tolerance)).length

/-- `edgesMatch(edge1, edge2, tolerance = 2)` from `src/main.ts`:
false when the lengths differ or are zero, otherwise true iff
`exactMatches / edge1.length >= 0.98`. -/
def edgesMatch (edge1 edge2 : List Color) (tolerance : ℚ) : Bool :=
  if edge1.length ≠ edge2.length then false
  else if edge1.length = 0 then false
  else decide ((49 : ℚ) / 50 ≤ (matchCount edge1 edge2 tolerance : ℚ) / (edge1.length : ℚ))

/-- The four border sequences of one tile (`interface EdgeColors`). -/
structure EdgeColors where
  top : List Color
  bottom : List Color
  left : List Color
  right : List Color
deriving DecidableEq, Repr

/-- The RGBA quad at flat offset `idx` of the decoded pixel buffer:
`[pixels[idx], pixels[idx+1], pixels[idx+2], pixels[idx+3]]`. -/
def colorAt (pixels : ℕ → ℤ) (idx : ℕ) : Color :=
  ⟨pixels idx, pixels (idx + 1), pixels (idx + 2), pixels (idx + 3)⟩

/-- The pure core of `extractEdgeColors`: border extraction from the decoded
row-major RGBA buffer (`imgData.data`), with exactly the source's index
arithmetic.  `top`/`bottom` come from the loop over `x`, `left`/`right`
from the loop over `y`; each loop pushes in increasing index order. -/
def extractEdgeCore (pixels : ℕ → ℤ) (tileSize : ℕ) : EdgeColors where
  top := (List.range tileSize).map (fun x => colorAt pixels ((0 * tileSize + x) * 4))
  bottom := (List.range tileSize).map
    (fun x => colorAt pixels (((tileSize - 1) * tileSize + x) * 4))
  left := (List.range tileSize).map (fun y => colorAt pixels ((y * tileSize + 0) * 4))
  right := (List.range tileSize).map
    (fun y => colorAt pixels ((y * tileSize + (tileSize - 1)) * 4))

/-- Spec-side row-major accessor: the pixel at row `row`, column `col` of a
square `tileSize × tileSize` RGBA buffer stored row-major with 4 channels
per pixel. -/
def bufferPixel (pixels : ℕ → ℤ) (tileSize row col : ℕ) : Color :=
  colorAt pixels ((row * tileSize + col) * 4)

/-- An input tile as `updateTileNeighbors` consumes it.  `edges` is the
result the asynchronous decoder delivers for the tile: `none` when the tile
has no `image` string (the source skips the `tileEdges.set` for it), and
`some e` when it has one (`e` is `⟨[], [], [], []⟩` whenever decoding
fails, matching every error path of `extractEdgeColors`). -/
structure TileIn where
  id : ℤ
  edges : Option EdgeColors
deriving DecidableEq, Repr

/-- An output tile: the four neighbor lists `updateTileNeighbors` populates,
holding the ids of the pushed tiles. -/
structure TileOut where
  id : ℤ
  up : List ℤ
  down : List ℤ
  left : List ℤ
  right : List ℤ
deriving DecidableEq, Repr

/-- One step of building the `tileEdges` map: `Map.set` overwrites, so a
later tile with the same id and an image replaces an earlier entry. -/
def edgeMapStep (i : ℤ) (acc : Option EdgeColors) (t : TileIn) : Option EdgeColors :=
  match t.edges with
  | some e => if t.id = i then some e else acc
  | none => acc

/-- `tileEdges.get(i)` after the source's first loop filled the map: the
edges of the last tile in input order whose id is `i` and which has an
image, or `none` when there is no such tile. -/
def edgeMapGet (tiles : List TileIn) (i : ℤ) : Option EdgeColors :=
  tiles.foldl (edgeMapStep i) none

/-- The body of the inner `tiles.forEach(tileB => ...)` loop for one
direction: tile `b` is pushed onto the list of the tile with id `aId` and
edge `eA` (one of the four borders of `A`) iff `b` is not `A` itself, `b`
has an entry `eB` in the edge map, and `edgesMatch eA (sel eB) 2` holds,
where `sel` selects the opposite border of `B`. -/
def dirTest (tiles : List TileIn) (aId : ℤ) (eA : List Color)
    (sel : EdgeColors → List Color) (b : TileIn) : Bool :=
  if aId = b.id then false
  else
    match edgeMapGet tiles b.id with
    | none => false
    | some eB => edgesMatch eA (sel eB) 2

/-- The outer-loop body of `updateTileNeighbors` for one tile `a`: its four
neighbor lists.  When `a` has no entry in the edge map the source's
`if (!edgesA) return;` leaves the lists as initialized: empty.  Otherwise
each list collects, in input order, the ids of the tiles passing the
direction's test: right pairs `edgesA.right` with `edgesB.left`, down pairs
`edgesA.bottom` with `edgesB.top`, left pairs `edgesA.left` with
`edgesB.right`, up pairs `edgesA.top` with `edgesB.bottom`. -/
def neighborsOf (tiles : List TileIn) (a : TileIn) : TileOut :=
  match edgeMapGet tiles a.id with
  | none => ⟨a.id, [], [], [], []⟩
  | some eA =>
    ⟨a.id,
      (tiles.filter (dirTest tiles a.id eA.top EdgeColors.bottom)).map TileIn.id,
      (tiles.filter (dirTest tiles a.id eA.bottom EdgeColors.top)).map TileIn.id,
      (tiles.filter (dirTest tiles a.id eA.left EdgeColors.right)).map TileIn.id,
      (tiles.filter (dirTest tiles a.id eA.right EdgeColors.left)).map TileIn.id⟩

/-- `updateTileNeighbors(tiles, tileSize)` from `src/main.ts`: every tile's
four neighbor lists are rebuilt from scratch by the pairwise comparison of
extracted edges.  (`tileSize` only feeds the decoding step, which the
`TileIn.edges` field already accounts for; the empty-input early return is
subsumed by the map over the empty list.) -/
def updateTileNeighbors (tiles : List TileIn) : List TileOut :=
  tiles.map (neighborsOf tiles)

/-! ## Helper lemmas about `edgesMatch` -/

lemma colorDistSq_comm (c1 c2 : Color) : colorDistSq c1 c2 = colorDistSq c2 c1 := by
  unfold colorDistSq; ring

lemma posMatches_comm (c1 c2 : Color) (t : ℚ) :
    posMatches c1 c2 t = posMatches c2 c1 t := by
  unfold posMatches; rw [colorDistSq_comm]

lemma matchCount_comm (e1 e2 : List Color) (t : ℚ) :
    matchCount e1 e2 t = matchCount e2 e1 t := by
  unfold matchCount
  rw [← List.countP_eq_length_filter, ← List.countP_eq_length_filter,
    ← List.zip_swap e1 e2, List.countP_map]
  apply List.countP_congr
  intro p _
  simp [Function.comp, posMatches_comm p.1 p.2 t]

lemma edgesMatch_comm (e1 e2 : List Color) (t : ℚ) :
    edgesMatch e1 e2 t = edgesMatch e2 e1 t := by
  unfold edgesMatch
  by_cases h : e1.length = e2.length
  · rw [h, matchCount_comm e1 e2 t]
  · rw [if_pos h, if_pos (Ne.symm h)]

lemma edgesMatch_nil_left (e2 : List Color) (t : ℚ) : edgesMatch [] e2 t = false := by
  unfold edgesMatch
  rcases e2 with _ | ⟨c, e⟩ <;> simp

lemma edgesMatch_nil_right (e1 : List Color) (t : ℚ) : edgesMatch e1 [] t = false := by
  unfold edgesMatch
  rcases e1 with _ | ⟨c, e⟩ <;> simp

/-- Division-free characterization of a successful match, used to evaluate
`edgesMatch` on concrete inputs (the rational division in the definition
does not reduce by `decide`). -/
lemma edgesMatch_true_iff (e1 e2 : List Color) (t : ℚ) :
    edgesMatch e1 e2 t = true ↔
      e1.length = e2.length ∧ e1.length ≠ 0 ∧
        49 * e1.length ≤ 50 * matchCount e1 e2 t := by
  unfold edgesMatch
  by_cases h : e1.length = e2.length
  · by_cases h0 : e1.length = 0
    · rw [if_neg (by simpa using h), if_pos h0]
      simp [h0]
    · rw [if_neg (by simpa using h), if_neg h0, decide_eq_true_iff]
      have hn : (0 : ℚ) < (e1.length : ℚ) := by
        exact_mod_cast Nat.pos_of_ne_zero h0
      rw [div_le_div_iff₀ (by norm_num : (0 : ℚ) < 50) hn]
      constructor
      · intro hh
        refine ⟨h, h0, ?_⟩
        have hh2 : (49 * e1.length : ℚ) ≤ (50 * matchCount e1 e2 t : ℚ) := by
          push_cast at hh ⊢; linarith
        exact_mod_cast hh2
      · rintro ⟨-, -, hh⟩
        have hh2 : (49 * e1.length : ℚ) ≤ (50 * matchCount e1 e2 t : ℚ) := by
          exact_mod_cast hh
        push_cast at hh2 ⊢; linarith
  · simp [h]

/-! ## Helper lemmas about the edge map -/

lemma foldl_edgeMapStep_of_no_hit (tiles : List TileIn) (i : ℤ) (acc : Option EdgeColors)
    (h : ∀ t ∈ tiles, t.id = i → t.edges = none) :
    tiles.foldl (edgeMapStep i) acc = acc := by
  induction tiles generalizing acc with
  | nil => rfl
  | cons t ts ih =>
    rw [List.foldl_cons]
    have hstep : edgeMapStep i acc t = acc := by
      unfold edgeMapStep
      cases he : t.edges with
      | none => rfl
      | some e =>
        by_cases hid : t.id = i
        · exact absurd (h t (by simp) hid) (by simp [he])
        · simp [hid]
    rw [hstep]
    exact ih acc (fun u hu hid => h u (by simp [hu]) hid)

lemma edgeMapGet_eq_none (tiles : List TileIn) (i : ℤ)
    (h : ∀ t ∈ tiles, t.id = i → t.edges = none) :
    edgeMapGet tiles i = none :=
  foldl_edgeMapStep_of_no_hit tiles i none h

lemma edgeMapGet_eq_some (tiles : List TileIn) (hu : (tiles.map TileIn.id).Nodup)
    (t : TileIn) (ht : t ∈ tiles) (e : EdgeColors) (he : t.edges = some e) :
    edgeMapGet tiles t.id = some e := by
  obtain ⟨s, r, rfl⟩ := List.append_of_mem ht
  have hr : ∀ u ∈ r, u.id ≠ t.id := by
    have h1 : ((t :: r).map TileIn.id).Nodup := by
      have := hu
      rw [List.map_append] at this
      exact this.of_append_right
    have h2 : t.id ∉ r.map TileIn.id := by
      rw [List.map_cons] at h1
      exact h1.not_mem
    intro u hur hueq
    exact h2 (hueq ▸ List.mem_map_of_mem TileIn.id hur)
  unfold edgeMapGet
  rw [List.foldl_append, List.foldl_cons]
  have hstep : edgeMapStep t.id (s.foldl (edgeMapStep t.id) none) t = some e := by
    simp [edgeMapStep, he]
  rw [hstep]
  exact foldl_edgeMapStep_of_no_hit r t.id (some e)
    (fun u hur hid => absurd hid (hr u hur))

lemma edgeMapGet_eq_none_of_mem (tiles : List TileIn)
    (hu : (tiles.map TileIn.id).Nodup) (t : TileIn) (ht : t ∈ tiles)
    (he : t.edges = none) : edgeMapGet tiles t.id = none := by
  apply edgeMapGet_eq_none
  intro u hut hid
  have : u = t := List.inj_on_of_nodup_map hu hut ht hid
  rw [this, he]

/-! ## Helper lemmas about `neighborsOf` and the output list -/

lemma neighborsOf_id (tiles : List TileIn) (a : TileIn) :
    (neighborsOf tiles a).id = a.id := by
  unfold neighborsOf
  cases edgeMapGet tiles a.id <;> rfl

lemma mem_updateTileNeighbors (tiles : List TileIn) (o : TileOut)
    (ho : o ∈ updateTileNeighbors tiles) : ∃ a ∈ tiles, o = neighborsOf tiles a := by
  unfold updateTileNeighbors at ho
  obtain ⟨a, ha, hao⟩ := List.mem_map.mp ho
  exact ⟨a, ha, hao.symm⟩

lemma output_eq_neighborsOf (tiles : List TileIn) (hu : (tiles.map TileIn.id).Nodup)
    (a : TileIn) (ha : a ∈ tiles) (o : TileOut)
    (ho : o ∈ updateTileNeighbors tiles) (hoid : o.id = a.id) :
    o = neighborsOf tiles a := by
  obtain ⟨c, hc, rfl⟩ := mem_updateTileNeighbors tiles o ho
  have hcid : c.id = a.id := by rw [← neighborsOf_id tiles c]; exact hoid
  have : c = a := List.inj_on_of_nodup_map hu hc ha hcid
  rw [this]

lemma mem_filter_map_id_iff (tiles : List TileIn) (hu : (tiles.map TileIn.id).Nodup)
    (b : TileIn) (hb : b ∈ tiles) (p : TileIn → Bool) :
    b.id ∈ (tiles.filter p).map TileIn.id ↔ p b = true := by
  constructor
  · intro h
    obtain ⟨c, hc, hcid⟩ := List.mem_map.mp h
    obtain ⟨hct, hcp⟩ := List.mem_filter.mp hc
    have : c = b := List.inj_on_of_nodup_map hu hct hb hcid
    rwa [this] at hcp
  · intro h
    exact List.mem_map_of_mem TileIn.id (List.mem_filter.mpr ⟨hb, h⟩)

lemma dirTest_eq_edgesMatch (tiles : List TileIn) (a b : TileIn) (hab : a.id ≠ b.id)
    (eB : EdgeColors) (hB : edgeMapGet tiles b.id = some eB)
    (eA : List Color) (sel : EdgeColors → List Color) :
    dirTest tiles a.id eA sel b = edgesMatch eA (sel eB) 2 := by
  unfold dirTest
  rw [if_neg hab, hB]

/-- The four membership characterizations for the neighbor lists of one
tile, shared by the directional-correctness and symmetry theorems. -/
lemma neighborsOf_mem_iff (tiles : List TileIn) (hu : (tiles.map TileIn.id).Nodup)
    (a b : TileIn) (hb : b ∈ tiles) (hab : a.id ≠ b.id) (eA eB : EdgeColors)
    (hA : edgeMapGet tiles a.id = some eA) (hB : edgeMapGet tiles b.id = some eB) :
    (b.id ∈ (neighborsOf tiles a).right ↔ edgesMatch eA.right eB.left 2 = true) ∧
    (b.id ∈ (neighborsOf tiles a).down ↔ edgesMatch eA.bottom eB.top 2 = true) ∧
    (b.id ∈ (neighborsOf tiles a).left ↔ edgesMatch eA.left eB.right 2 = true) ∧
    (b.id ∈ (neighborsOf tiles a).up ↔ edgesMatch eA.top eB.bottom 2 = true) := by
  unfold neighborsOf
  rw [hA]
  refine ⟨?_, ?_, ?_, ?_⟩ <;>
    rw [mem_filter_map_id_iff tiles hu b hb _,
      dirTest_eq_edgesMatch tiles a b hab eB hB]

/-! ## Additional helper lemmas for empty edges -/

lemma dirTest_empty_eA (tiles : List TileIn) (aId : ℤ)
    (sel : EdgeColors → List Color) (c : TileIn) :
    dirTest tiles aId [] sel c = false := by
  unfold dirTest
  by_cases h : aId = c.id
  · rw [if_pos h]
  · rw [if_neg h]
    cases edgeMapGet tiles c.id with
    | none => rfl
    | some eB => exact edgesMatch_nil_left (sel eB) 2

lemma neighborList_empty (tiles : List TileIn) (aId : ℤ)
    (sel : EdgeColors → List Color) :
    (tiles.filter (dirTest tiles aId [] sel)).map TileIn.id = [] := by
  have h : tiles.filter (dirTest tiles aId [] sel) = [] :=
    List.filter_eq_nil_iff.mpr (fun c _ => by simp [dirTest_empty_eA])
  rw [h]
  rfl

/-! ## Concrete data for witnesses -/

def cRed : Color := ⟨255, 0, 0, 255⟩
def cBlue : Color := ⟨0, 0, 255, 255⟩
def cZero : Color := ⟨0, 0, 0, 0⟩
def cFar : Color := ⟨255, 255, 255, 255⟩

def fullE : EdgeColors := ⟨[cRed], [cRed], [cRed], [cRed]⟩
def blueE : EdgeColors := ⟨[cBlue], [cBlue], [cBlue], [cBlue]⟩

def tA : TileIn := ⟨0, some fullE⟩
def tB : TileIn := ⟨1, some fullE⟩
def tC : TileIn := ⟨2, some blueE⟩
def tN : TileIn := ⟨3, none⟩

def tilesW : List TileIn := [tA, tB, tC, tN]

def e100 : List Color := List.replicate 100 cZero
def e98 : List Color := List.replicate 98 cZero ++ List.replicate 2 cFar
def e97 : List Color := List.replicate 97 cZero ++ List.replicate 3 cFar

def pixFun : ℕ → ℤ := fun n => (n : ℤ)

/-! ## Claim theorems -/

/-- Claim C2: for equal-length non-empty edges and any tolerance,
`edgesMatch` returns true iff the fraction of positions within tolerance is
at least 0.98; the witness checks the boundary at length 100 with 98
matching positions (true) versus 97 (false). -/
theorem edgesMatch_ratio_threshold (e1 e2 : List Color) (t : ℚ)
    (hlen : e1.length = e2.length) (hne : e1 ≠ []) :
    edgesMatch e1 e2 t = true ↔
      (49 : ℚ) / 50 ≤ (matchCount e1 e2 t : ℚ) / (e1.length : ℚ) := by
  unfold edgesMatch
  rw [if_neg (by simpa using hlen),
    if_neg (by simpa [List.length_eq_zero] using hne), decide_eq_true_iff]

/-- Witness for C2 at concrete length-100 edges: the hypotheses hold and the
threshold sits exactly at 98 matching positions out of 100. -/
theorem edgesMatch_ratio_threshold_witness :
    (e100.length = e98.length ∧ e100 ≠ [] ∧
      (edgesMatch e100 e98 2 = true ↔
        (49 : ℚ) / 50 ≤ (matchCount e100 e98 2 : ℚ) / (e100.length : ℚ))) ∧
    edgesMatch e100 e98 2 = true ∧ edgesMatch e100 e97 2 = false := by
  refine ⟨⟨by decide, by decide,
    edgesMatch_ratio_threshold e100 e98 2 (by decide) (by decide)⟩, ?_, ?_⟩
  · exact (edgesMatch_true_iff e100 e98 2).mpr ⟨by decide, by decide, by decide⟩
  · rw [← Bool.not_eq_true, edgesMatch_true_iff]
    decide

/-- Claim C3: a position counts as matching exactly when the Euclidean
distance between the two RGBA colors, `sqrt((r1-r2)^2 + (g1-g2)^2 +
(b1-b2)^2 + (a1-a2)^2)`, is at most the tolerance; distance exactly equal
to the tolerance matches, strictly above does not. -/
theorem posMatches_iff_sqrt_le (c1 c2 : Color) (t : ℚ) :
    posMatches c1 c2 t = true ↔
      Real.sqrt (((c1.r : ℝ) - (c2.r : ℝ)) ^ 2 + ((c1.g : ℝ) - (c2.g : ℝ)) ^ 2 +
          ((c1.b : ℝ) - (c2.b : ℝ)) ^ 2 + ((c1.a : ℝ) - (c2.a : ℝ)) ^ 2) ≤ (t : ℝ) := by
  unfold posMatches
  rw [Bool.and_eq_true, decide_eq_true_iff, decide_eq_true_iff, Real.sqrt_le_iff]
  apply and_congr
  · exact Iff.symm Rat.cast_nonneg
  · constructor
    · intro hh
      have hh2 : ((colorDistSq c1 c2 : ℚ) : ℝ) ≤ ((t ^ 2 : ℚ) : ℝ) := by exact_mod_cast hh
      unfold colorDistSq at hh2
      push_cast at hh2 ⊢
      linarith
    · intro hh
      have hh2 : ((colorDistSq c1 c2 : ℚ) : ℝ) ≤ ((t ^ 2 : ℚ) : ℝ) := by
        unfold colorDistSq
        push_cast at hh ⊢
        linarith
      exact_mod_cast hh2

/-- Claim C4: `edgesMatch` is false whenever the edges differ in length or
either is empty, regardless of content. -/
theorem edgesMatch_length_guard (e1 e2 : List Color) (t : ℚ)
    (h : e1.length ≠ e2.length ∨ e1 = [] ∨ e2 = []) :
    edgesMatch e1 e2 t = false := by
  unfold edgesMatch
  rcases h with h | h | h
  · rw [if_pos h]
  · by_cases hl : e1.length = e2.length
    · have h0 : e1.length = 0 := by rw [h]; rfl
      rw [if_neg (by simpa using hl), if_pos h0]
    · rw [if_pos hl]
  · by_cases hl : e1.length = e2.length
    · have h0 : e1.length = 0 := by rw [hl, h]; rfl
      rw [if_neg (by simpa using hl), if_pos h0]
    · rw [if_pos hl]

/-- Witness for C4: a one-pixel edge never matches an empty edge. -/
theorem edgesMatch_length_guard_witness :
    ([cRed].length ≠ ([] : List Color).length ∨ [cRed] = [] ∨ ([] : List Color) = []) ∧
    edgesMatch [cRed] [] 7 = false :=
  ⟨by decide, edgesMatch_length_guard [cRed] [] 7 (by decide)⟩

/-- Claim C1: for tiles with unique ids and any ordered pair of distinct
tiles A, B whose edges were both extracted, B is in A's right list iff
`edgesMatch(A.right, B.left)`, in A's down list iff
`edgesMatch(A.bottom, B.top)`, in A's left list iff
`edgesMatch(A.left, B.right)`, and in A's up list iff
`edgesMatch(A.top, B.bottom)` (tolerance 2, the default the source
passes). -/
theorem updateTileNeighbors_direction_iff (tiles : List TileIn)
    (hu : (tiles.map TileIn.id).Nodup) (a b : TileIn) (ha : a ∈ tiles)
    (hb : b ∈ tiles) (hab : a.id ≠ b.id) (eA eB : EdgeColors)
    (hea : a.edges = some eA) (heb : b.edges = some eB) (o : TileOut)
    (ho : o ∈ updateTileNeighbors tiles) (hoid : o.id = a.id) :
    (b.id ∈ o.right ↔ edgesMatch eA.right eB.left 2 = true) ∧
    (b.id ∈ o.down ↔ edgesMatch eA.bottom eB.top 2 = true) ∧
    (b.id ∈ o.left ↔ edgesMatch eA.left eB.right 2 = true) ∧
    (b.id ∈ o.up ↔ edgesMatch eA.top eB.bottom 2 = true) := by
  have hA := edgeMapGet_eq_some tiles hu a ha eA hea
  have hB := edgeMapGet_eq_some tiles hu b hb eB heb
  rw [output_eq_neighborsOf tiles hu a ha o ho hoid]
  exact neighborsOf_mem_iff tiles hu a b hb hab eA eB hA hB

/-- Witness for C1 on a concrete four-tile input: two identical red tiles,
one blue tile, one tile without image data. -/
theorem updateTileNeighbors_direction_iff_witness :
    (tB.id ∈ (neighborsOf tilesW tA).right ↔ edgesMatch fullE.right fullE.left 2 = true) ∧
    (tB.id ∈ (neighborsOf tilesW tA).down ↔ edgesMatch fullE.bottom fullE.top 2 = true) ∧
    (tB.id ∈ (neighborsOf tilesW tA).left ↔ edgesMatch fullE.left fullE.right 2 = true) ∧
    (tB.id ∈ (neighborsOf tilesW tA).up ↔ edgesMatch fullE.top fullE.bottom 2 = true) :=
  updateTileNeighbors_direction_iff tilesW (by decide) tA tB (by decide) (by decide)
    (by decide) fullE fullE rfl rfl (neighborsOf tilesW tA)
    (List.mem_map_of_mem (neighborsOf tilesW) (by decide)) (neighborsOf_id tilesW tA)

/-- Claim C5: with unique tile ids, no output tile's id appears in any of
its own four neighbor lists — pairs with equal ids are skipped entirely. -/
theorem updateTileNeighbors_no_self (tiles : List TileIn)
    (_hu : (tiles.map TileIn.id).Nodup) (o : TileOut)
    (ho : o ∈ updateTileNeighbors tiles) :
    o.id ∉ o.up ∧ o.id ∉ o.down ∧ o.id ∉ o.left ∧ o.id ∉ o.right := by
  obtain ⟨a, ha, rfl⟩ := mem_updateTileNeighbors tiles o ho
  rw [neighborsOf_id tiles a]
  unfold neighborsOf
  cases h : edgeMapGet tiles a.id with
  | none => simp
  | some eA =>
    refine ⟨?_, ?_, ?_, ?_⟩ <;>
    · intro hmem
      obtain ⟨c, hc, hcid⟩ := List.mem_map.mp hmem
      obtain ⟨hct, hdir⟩ := List.mem_filter.mp hc
      unfold dirTest at hdir
      rw [if_pos hcid.symm] at hdir
      simp at hdir

/-- Witness for C5 at the concrete four-tile input. -/
theorem updateTileNeighbors_no_self_witness :
    (neighborsOf tilesW tA).id ∉ (neighborsOf tilesW tA).up ∧
    (neighborsOf tilesW tA).id ∉ (neighborsOf tilesW tA).down ∧
    (neighborsOf tilesW tA).id ∉ (neighborsOf tilesW tA).left ∧
    (neighborsOf tilesW tA).id ∉ (neighborsOf tilesW tA).right :=
  updateTileNeighbors_no_self tilesW (by decide) (neighborsOf tilesW tA)
    (List.mem_map_of_mem (neighborsOf tilesW) (by decide))

/-- Claim C6: with unique tile ids, a tile with no pixel data (no image, or
edges that extracted as four empty sequences) ends with four empty neighbor
lists and never appears in any other tile's neighbor list; no error path
exists for it. -/
theorem updateTileNeighbors_empty_degradation (tiles : List TileIn)
    (hu : (tiles.map TileIn.id).Nodup) (t : TileIn) (ht : t ∈ tiles)
    (hnd : t.edges = none ∨ t.edges = some ⟨[], [], [], []⟩)
    (o : TileOut) (ho : o ∈ updateTileNeighbors tiles) :
    (o.id = t.id → o.up = [] ∧ o.down = [] ∧ o.left = [] ∧ o.right = []) ∧
    (t.id ∉ o.up ∧ t.id ∉ o.down ∧ t.id ∉ o.left ∧ t.id ∉ o.right) := by
  have hmap : edgeMapGet tiles t.id = none ∨
      edgeMapGet tiles t.id = some ⟨[], [], [], []⟩ := by
    rcases hnd with hnd | hnd
    · exact Or.inl (edgeMapGet_eq_none_of_mem tiles hu t ht hnd)
    · exact Or.inr (edgeMapGet_eq_some tiles hu t ht _ hnd)
  constructor
  · intro hoid
    rw [output_eq_neighborsOf tiles hu t ht o ho hoid]
    unfold neighborsOf
    rcases hmap with hm | hm <;> rw [hm]
    · exact ⟨rfl, rfl, rfl, rfl⟩
    · exact ⟨neighborList_empty tiles t.id EdgeColors.bottom,
        neighborList_empty tiles t.id EdgeColors.top,
        neighborList_empty tiles t.id EdgeColors.right,
        neighborList_empty tiles t.id EdgeColors.left⟩
  · obtain ⟨a, ha, rfl⟩ := mem_updateTileNeighbors tiles o ho
    unfold neighborsOf
    cases h : edgeMapGet tiles a.id with
    | none => simp
    | some eA =>
      refine ⟨?_, ?_, ?_, ?_⟩ <;>
      · intro hmem
        obtain ⟨c, hc, hcid⟩ := List.mem_map.mp hmem
        obtain ⟨hct, hdir⟩ := List.mem_filter.mp hc
        have hceq : c = t := List.inj_on_of_nodup_map hu hct ht hcid
        rw [hceq] at hdir
        unfold dirTest at hdir
        by_cases hat : a.id = t.id
        · rw [if_pos hat] at hdir
          simp at hdir
        · rw [if_neg hat] at hdir
          rcases hmap with hm | hm <;> rw [hm] at hdir
          · simp at hdir
          · simp [edgesMatch_nil_right] at hdir

/-- Witness for C6: the imageless tile of the concrete input has empty
lists and never occurs as a neighbor of the red tile. -/
theorem updateTileNeighbors_empty_degradation_witness :
    ((neighborsOf tilesW tA).id = tN.id →
      (neighborsOf tilesW tA).up = [] ∧ (neighborsOf tilesW tA).down = [] ∧
      (neighborsOf tilesW tA).left = [] ∧ (neighborsOf tilesW tA).right = []) ∧
    (tN.id ∉ (neighborsOf tilesW tA).up ∧ tN.id ∉ (neighborsOf tilesW tA).down ∧
      tN.id ∉ (neighborsOf tilesW tA).left ∧ tN.id ∉ (neighborsOf tilesW tA).right) :=
  updateTileNeighbors_empty_degradation tilesW (by decide) tN (by decide)
    (Or.inl rfl) (neighborsOf tilesW tA)
    (List.mem_map_of_mem (neighborsOf tilesW) (by decide))

/-- Claim C7: the edge extractor returns four sequences of length
`tileSize`, with `top[x]` the pixel at row 0 column `x`, `bottom[x]` at row
`tileSize-1` column `x`, `left[y]` at row `y` column 0, and `right[y]` at
row `y` column `tileSize-1`, in source-buffer order with no reversal. -/
theorem extractEdgeCore_spec (pixels : ℕ → ℤ) (tileSize : ℕ) :
    ((extractEdgeCore pixels tileSize).top.length = tileSize ∧
      (extractEdgeCore pixels tileSize).bottom.length = tileSize ∧
      (extractEdgeCore pixels tileSize).left.length = tileSize ∧
      (extractEdgeCore pixels tileSize).right.length = tileSize) ∧
    ∀ i, i < tileSize →
      (extractEdgeCore pixels tileSize).top[i]? =
        some (bufferPixel pixels tileSize 0 i) ∧
      (extractEdgeCore pixels tileSize).bottom[i]? =
        some (bufferPixel pixels tileSize (tileSize - 1) i) ∧
      (extractEdgeCore pixels tileSize).left[i]? =
        some (bufferPixel pixels tileSize i 0) ∧
      (extractEdgeCore pixels tileSize).right[i]? =
        some (bufferPixel pixels tileSize i (tileSize - 1)) := by
  constructor
  · refine ⟨?_, ?_, ?_, ?_⟩ <;> simp [extractEdgeCore]
  · intro i hi
    refine ⟨?_, ?_, ?_, ?_⟩ <;>
      simp [extractEdgeCore, List.getElem?_map, List.getElem?_range hi, bufferPixel]

/-- Witness for C7 on a concrete buffer (`pixFun n = n`) of tile size 2. -/
theorem extractEdgeCore_spec_witness :
    1 < 2 ∧
    ((extractEdgeCore pixFun 2).top[1]? = some (bufferPixel pixFun 2 0 1) ∧
      (extractEdgeCore pixFun 2).bottom[1]? = some (bufferPixel pixFun 2 (2 - 1) 1) ∧
      (extractEdgeCore pixFun 2).left[1]? = some (bufferPixel pixFun 2 1 0) ∧
      (extractEdgeCore pixFun 2).right[1]? = some (bufferPixel pixFun 2 1 (2 - 1))) :=
  ⟨by decide, (extractEdgeCore_spec pixFun 2).2 1 (by decide)⟩

/-- Claim C8: every neighbor list is an in-order subsequence of the input
id sequence — entries appear in input-tile order, with no re-sorting — and,
whenever the tile's edges are in the edge map, the list is exactly the
in-order filtering of the input tiles by that direction's match test. -/
theorem updateTileNeighbors_order_sublist (tiles : List TileIn) (o : TileOut)
    (ho : o ∈ updateTileNeighbors tiles) :
    (o.up.Sublist (tiles.map TileIn.id) ∧ o.down.Sublist (tiles.map TileIn.id) ∧
      o.left.Sublist (tiles.map TileIn.id) ∧ o.right.Sublist (tiles.map TileIn.id)) ∧
    ∀ eA, edgeMapGet tiles o.id = some eA →
      o.up = (tiles.filter (dirTest tiles o.id eA.top EdgeColors.bottom)).map TileIn.id ∧
      o.down = (tiles.filter (dirTest tiles o.id eA.bottom EdgeColors.top)).map TileIn.id ∧
      o.left = (tiles.filter (dirTest tiles o.id eA.left EdgeColors.right)).map TileIn.id ∧
      o.right = (tiles.filter (dirTest tiles o.id eA.right EdgeColors.left)).map TileIn.id := by
  obtain ⟨a, ha, rfl⟩ := mem_updateTileNeighbors tiles o ho
  rw [neighborsOf_id tiles a]
  unfold neighborsOf
  cases h : edgeMapGet tiles a.id with
  | none =>
    refine ⟨⟨List.nil_sublist _, List.nil_sublist _, List.nil_sublist _,
      List.nil_sublist _⟩, ?_⟩
    intro eA heq
    simp at heq
  | some eA =>
    refine ⟨⟨List.Sublist.map TileIn.id (List.filter_sublist tiles),
      List.Sublist.map TileIn.id (List.filter_sublist tiles),
      List.Sublist.map TileIn.id (List.filter_sublist tiles),
      List.Sublist.map TileIn.id (List.filter_sublist tiles)⟩, ?_⟩
    intro eB heq
    injection heq with heq2
    subst heq2
    exact ⟨rfl, rfl, rfl, rfl⟩

/-- Witness for C8 at the concrete four-tile input. -/
theorem updateTileNeighbors_order_sublist_witness :
    (((neighborsOf tilesW tA).up.Sublist (tilesW.map TileIn.id) ∧
      (neighborsOf tilesW tA).down.Sublist (tilesW.map TileIn.id) ∧
      (neighborsOf tilesW tA).left.Sublist (tilesW.map TileIn.id) ∧
      (neighborsOf tilesW tA).right.Sublist (tilesW.map TileIn.id)) ∧
    ∀ eA, edgeMapGet tilesW (neighborsOf tilesW tA).id = some eA →
      (neighborsOf tilesW tA).up =
        (tilesW.filter (dirTest tilesW (neighborsOf tilesW tA).id eA.top
          EdgeColors.bottom)).map TileIn.id ∧
      (neighborsOf tilesW tA).down =
        (tilesW.filter (dirTest tilesW (neighborsOf tilesW tA).id eA.bottom
          EdgeColors.top)).map TileIn.id ∧
      (neighborsOf tilesW tA).left =
        (tilesW.filter (dirTest tilesW (neighborsOf tilesW tA).id eA.left
          EdgeColors.right)).map TileIn.id ∧
      (neighborsOf tilesW tA).right =
        (tilesW.filter (dirTest tilesW (neighborsOf tilesW tA).id eA.right
          EdgeColors.left)).map TileIn.id) :=
  updateTileNeighbors_order_sublist tilesW (neighborsOf tilesW tA)
    (List.mem_map_of_mem (neighborsOf tilesW) (by decide))

/-- Claim C10: `edgesMatch` is symmetric in its two edges, and consequently
the adjacency relation is mutually symmetric across opposite directions:
B is in A's right list iff A is in B's left list, and B is in A's down
list iff A is in B's up list. -/
theorem updateTileNeighbors_opposite_symmetry (tiles : List TileIn)
    (hu : (tiles.map TileIn.id).Nodup) (a b : TileIn) (ha : a ∈ tiles)
    (hb : b ∈ tiles) (hab : a.id ≠ b.id) (eA eB : EdgeColors)
    (hea : a.edges = some eA) (heb : b.edges = some eB) (oa ob : TileOut)
    (hoa : oa ∈ updateTileNeighbors tiles) (hoaid : oa.id = a.id)
    (hob : ob ∈ updateTileNeighbors tiles) (hobid : ob.id = b.id) :
    (∀ (f1 f2 : List Color) (t : ℚ), edgesMatch f1 f2 t = edgesMatch f2 f1 t) ∧
    (b.id ∈ oa.right ↔ a.id ∈ ob.left) ∧ (b.id ∈ oa.down ↔ a.id ∈ ob.up) := by
  have hA := edgeMapGet_eq_some tiles hu a ha eA hea
  have hB := edgeMapGet_eq_some tiles hu b hb eB heb
  rw [output_eq_neighborsOf tiles hu a ha oa hoa hoaid,
    output_eq_neighborsOf tiles hu b hb ob hob hobid]
  obtain ⟨hr, hd, _, _⟩ := neighborsOf_mem_iff tiles hu a b hb hab eA eB hA hB
  obtain ⟨_, _, hl2, hup2⟩ :=
    neighborsOf_mem_iff tiles hu b a ha (Ne.symm hab) eB eA hB hA
  refine ⟨fun f1 f2 t => edgesMatch_comm f1 f2 t, ?_, ?_⟩
  · rw [hr, hl2, edgesMatch_comm]
  · rw [hd, hup2, edgesMatch_comm]

/-- Witness for C10 at the concrete four-tile input, with the two red
tiles as A and B. -/
theorem updateTileNeighbors_opposite_symmetry_witness :
    (∀ (f1 f2 : List Color) (t : ℚ), edgesMatch f1 f2 t = edgesMatch f2 f1 t) ∧
    (tB.id ∈ (neighborsOf tilesW tA).right ↔ tA.id ∈ (neighborsOf tilesW tB).left) ∧
    (tB.id ∈ (neighborsOf tilesW tA).down ↔ tA.id ∈ (neighborsOf tilesW tB).up) :=
  updateTileNeighbors_opposite_symmetry tilesW (by decide) tA tB (by decide)
    (by decide) (by decide) fullE fullE rfl rfl (neighborsOf tilesW tA)
    (neighborsOf tilesW tB)
    (List.mem_map_of_mem (neighborsOf tilesW) (by decide)) (neighborsOf_id tilesW tA)
    (List.mem_map_of_mem (neighborsOf tilesW) (by decide)) (neighborsOf_id tilesW tB)
